import Mathlib

/-!
Shallow embedding of GCSToS3Operator.execute
(src/airflow/providers/amazon/aws/transfers/gcs_to_s3.py, lines 134-196).

Python strings are modelled as lists of characters (PyStr).  The destination
S3 bucket is modelled as the list of keys it contains.  The GCS source
listing, the iteration order of the Python set difference at line 176, the
per-object fetch outcome and the per-object write outcome are parameters of
the model, since they are produced by external hooks (or, for the set order,
left unspecified by the language).
-/

namespace GcsToS3

/-- Python strings, modelled as lists of characters. -/
abbrev PyStr := List Char

/-- Python s.startswith("/"): the string begins with the path separator. -/
def startsSlash : PyStr → Bool
  | [] => false
  | c :: _ => c == '/'

/-- Python s.endswith("/"): the string ends with the path separator. -/
def endsSlash (s : PyStr) : Bool := decide (s.getLast? = some '/')

/-- posixpath.join restricted to two segments, as used at lines 157 and 182
of the source: if the right segment is absolute it wins; otherwise it is
appended to the left segment, inserting one separator unless the left
segment is empty or already ends with one. -/
def osJoin (a b : PyStr) : PyStr :=
  if startsSlash b then b
  else if a = [] ∨ endsSlash a = true then a ++ b
  else a ++ '/' :: b

/-- Lines 167-168 of the source: if the parsed destination prefix is
non-empty and does not already end with the separator, append one; an
empty parsed destination prefix is left untouched. -/
def normalizePfx (p : PyStr) : PyStr :=
  if p ≠ [] then (if endsSlash p = true then p else p ++ ['/']) else p

/-- Remove the first (leftmost) occurrence of pat from the string, scanning
from the left; the string is unchanged when pat does not occur (and when
pat is empty). -/
def stripFirst (pat : PyStr) : PyStr → PyStr
  | [] => []
  | c :: cs =>
    if pat.isPrefixOf (c :: cs) then (c :: cs).drop pat.length
    else c :: stripFirst pat cs

/-- Python file.replace(pat, "", 1), as used at line 175 of the source:
remove the first occurrence of pat anywhere in the string. -/
def pyReplaceOnce (s pat : PyStr) : PyStr := stripFirst pat s

/-- Split a string at its first separator: ("b/x/y" becomes (b, x/y),
"b" becomes (b, "")). -/
def splitOnFirstSlash : PyStr → PyStr × PyStr
  | [] => ([], [])
  | c :: cs =>
    if c = '/' then ([], cs)
    else (c :: (splitOnFirstSlash cs).1, (splitOnFirstSlash cs).2)

/-- The URL scheme of a composite S3 key. -/
def scheme : PyStr := ['s', '3', ':', '/', '/']

/-- Modelled from the spec: parseLocation(compositeKey) -> (bucket, prefix)
(section 6; S3Hook.parse_s3_url is not part of the sources under src/).
A composite key s3://bucket/rest is split into the bucket (the segment
before the first separator after the scheme) and the remaining key prefix. -/
def parse_s3_url (url : PyStr) : PyStr × PyStr :=
  let body := if scheme.isPrefixOf url then url.drop scheme.length else url
  splitOnFirstSlash body

/-- Modelled from the spec: listObjectKeys(bucket, prefix?) enumerates the
existing destination object names under the prefix (section 6; glossary:
a prefix matches objects whose key starts with it).  The destination
bucket is modelled as the list of keys it contains. -/
def list_keys (keys : List PyStr) (p : PyStr) : List PyStr :=
  keys.filter (fun k => p.isPrefixOf k)

/-- Modelled from the spec: writeObject (section 6; S3Hook.load_file is not
part of the sources under src/).  The composite destination key is parsed
and the object is stored under the parsed key in the destination bucket;
writing an already-present key leaves the key set unchanged. -/
def load_file (keys : List PyStr) (key : PyStr) : List PyStr :=
  let rel := (parse_s3_url key).2
  if rel ∈ keys then keys else keys ++ [rel]

/-- The operator fields that take part in the transfer logic (lines 94-132
of the source; connection identifiers, verify and extra-args plumbing are
consumed by the external hooks and carry no logic here).  pfx models the
field named prefix in the source. -/
structure Operator where
  bucket : PyStr
  pfx : Option PyStr
  delimiter : Option PyStr
  dest_s3_key : PyStr
  replace : Bool
  s3_acl_policy : Option PyStr
  keep_directory_structure : Bool
  match_glob : Option PyStr

/-- Lines 156-157 of the source: when keep_directory_structure is false and
the source prefix is truthy, dest_s3_key is reassigned to the join of
dest_s3_key and the prefix; every other field is kept. -/
def effectiveOp (op : Operator) : Operator :=
  if op.keep_directory_structure = false ∧ op.pfx.getD [] ≠ [] then
    ⟨op.bucket, op.pfx, op.delimiter, osJoin op.dest_s3_key (op.pfx.getD []),
     op.replace, op.s3_acl_policy, op.keep_directory_structure, op.match_glob⟩
  else op

/-- Lines 159-176 of the source: the files kept for transfer.  listK models
the call s3_hook.list_keys(bucket_name, prefix=p) (its result may be
absent); enum models the iteration order of list(set(files) -
set(existing_files)). -/
def selectFiles (d : PyStr) (rep : Bool) (files : List PyStr)
    (listK : PyStr → Option (List PyStr))
    (enum : List PyStr → List PyStr → List PyStr) : List PyStr :=
  if ¬ rep then
    let p := normalizePfx (parse_s3_url d).2
    let existing_files := (listK p).getD []
    let stripped := existing_files.map (fun file => pyReplaceOnce file p)
    enum files stripped
  else files

/-- enum is an admissible iteration order of the Python set difference
list(set(xs) - set(ys)): a duplicate-free list whose members are exactly
the members of xs that are not members of ys. -/
def IsSetDiffEnum (enum : List PyStr → List PyStr → List PyStr) : Prop :=
  ∀ xs ys, (enum xs ys).Nodup ∧ ∀ a, a ∈ enum xs ys ↔ a ∈ xs ∧ a ∉ ys

/-- One concrete admissible iteration order (first occurrences kept, in
source order), used to instantiate hypotheses at concrete inputs. -/
def pySetDiffList (xs ys : List PyStr) : List PyStr :=
  xs.dedup.filter (fun a => decide (a ∉ ys))

/-- Another concrete admissible iteration order (the reverse of the
previous one): the language does not fix which order the set difference
is enumerated in. -/
def pySetDiffRev (xs ys : List PyStr) : List PyStr :=
  (pySetDiffList xs ys).reverse

/-- Lines 178-196 of the source: fetch each file, join the destination key,
write, in list order; the first fetch or write failure aborts the loop,
keeping the keys already written. -/
def uploadLoop (fetch : PyStr → Except String Unit)
    (writeErr : PyStr → Option String) (d : PyStr) :
    List PyStr → List PyStr → List PyStr × Option String
  | keys, [] => (keys, none)
  | keys, f :: rest =>
    match fetch f with
    | Except.error e => (keys, some e)
    | Except.ok _ =>
      match writeErr (osJoin d f) with
      | some e => (keys, some e)
      | none => uploadLoop fetch writeErr d (load_file keys (osJoin d f)) rest

/-- The observable outcome of one run: the operator (whose fields the run
may have mutated), the list the run returns (returned to the caller only
when err is none), the destination keys after the run, and the first
error if one occurred. -/
structure ExecOut where
  op : Operator
  transferred : List PyStr
  destKeys : List PyStr
  err : Option String

/-- GCSToS3Operator.execute (lines 134-196): files0 is the GCS listing
returned by hook.list, destKeys the current keys of the destination
bucket, enum the set-difference iteration order, fetch and writeErr the
outcomes of hook.provide_file and s3_hook.load_file. -/
def execute (op0 : Operator) (files0 : List PyStr) (destKeys : List PyStr)
    (enum : List PyStr → List PyStr → List PyStr)
    (fetch : PyStr → Except String Unit)
    (writeErr : PyStr → Option String) : ExecOut :=
  let op := effectiveOp op0
  let files := selectFiles op.dest_s3_key op.replace files0
      (fun p => some (list_keys destKeys p)) enum
  let r := uploadLoop fetch writeErr op.dest_s3_key destKeys files
  ⟨op, files, r.1, r.2⟩

/-- A fetch that always succeeds. -/
def fetchOk : PyStr → Except String Unit := fun _ => Except.ok ()

/-- A write that never fails. -/
def writeOk : PyStr → Option String := fun _ => none

/-- The stripping operation as the spec describes it: the normalized prefix
removed once, from the left, of the key; unchanged when the prefix does
not occur there.  (For comparison with pyReplaceOnce.) -/
def stripFromLeft (p key : PyStr) : PyStr :=
  if p.isPrefixOf key then key.drop p.length else key

/-- The stripped destination listing a run computes from a destination
state: the keys under the normalized parsed prefix of d, the prefix
removed from each. -/
def existingStripped (destKeys : List PyStr) (d : PyStr) : List PyStr :=
  (list_keys destKeys (normalizePfx (parse_s3_url d).2)).map
    (fun file => pyReplaceOnce file (normalizePfx (parse_s3_url d).2))

/-! ### Helper lemmas -/

theorem startsSlash_ne_nil {b : PyStr} (h : startsSlash b = true) : b ≠ [] := by
  intro he
  subst he
  simp [startsSlash] at h

theorem startsSlash_append (a b : PyStr) (h : a ≠ []) :
    startsSlash (a ++ b) = startsSlash a := by
  cases a with
  | nil => exact absurd rfl h
  | cons c cs => rfl

theorem endsSlash_append (a b : PyStr) (h : b ≠ []) :
    endsSlash (a ++ b) = endsSlash b := by
  obtain ⟨x, hx⟩ := Option.isSome_iff_exists.mp (List.getLast?_isSome.mpr h)
  unfold endsSlash
  rw [List.getLast?_append, hx]
  rfl

theorem endsSlash_concat (a : PyStr) : endsSlash (a ++ ['/']) = true := by
  simp [endsSlash]

theorem isPrefixOf_self_append (p s : PyStr) : p.isPrefixOf (p ++ s) = true := by
  induction p with
  | nil => cases s <;> simp [List.isPrefixOf]
  | cons a as ih => simp [List.isPrefixOf, ih]

theorem isPrefixOf_iff_exists (p k : PyStr) :
    p.isPrefixOf k = true ↔ ∃ t, k = p ++ t := by
  induction p generalizing k with
  | nil => simp [List.isPrefixOf]
  | cons a as ih =>
    cases k with
    | nil => simp [List.isPrefixOf]
    | cons b bs =>
      simp only [List.isPrefixOf, Bool.and_eq_true, beq_iff_eq, ih,
        List.cons_append, List.cons.injEq]
      constructor
      · rintro ⟨hab, t, ht⟩
        exact ⟨t, hab.symm, ht⟩
      · rintro ⟨t, hab, ht⟩
        exact ⟨hab.symm, t, ht⟩

theorem stripFirst_nil_pat (s : PyStr) : stripFirst [] s = s := by
  cases s <;> simp [stripFirst, List.isPrefixOf]

theorem stripFirst_self_append (p s : PyStr) : stripFirst p (p ++ s) = s := by
  cases p with
  | nil => simpa using stripFirst_nil_pat s
  | cons a as =>
    show stripFirst (a :: as) ((a :: as) ++ s) = s
    rw [List.cons_append, stripFirst, if_pos]
    · rw [← List.cons_append, List.drop_left]
    · rw [← List.cons_append]
      exact isPrefixOf_self_append _ _

theorem splitOnFirstSlash_append (b rest : PyStr) (hb : '/' ∉ b) :
    splitOnFirstSlash (b ++ '/' :: rest) = (b, rest) := by
  induction b with
  | nil => simp [splitOnFirstSlash]
  | cons c cs ih =>
    have hc : c ≠ '/' := fun h => hb (h ▸ List.mem_cons_self c cs)
    have hcs : '/' ∉ cs := fun h => hb (List.mem_cons_of_mem c h)
    simp [splitOnFirstSlash, hc, ih hcs]

theorem parse_append (b rest : PyStr) (hb : '/' ∉ b) :
    parse_s3_url (scheme ++ b ++ '/' :: rest) = (b, rest) := by
  unfold parse_s3_url
  rw [List.append_assoc, if_pos (isPrefixOf_self_append _ _), List.drop_left]
  exact splitOnFirstSlash_append b rest hb

theorem effectiveOp_replace (op : Operator) :
    (effectiveOp op).replace = op.replace := by
  unfold effectiveOp
  split <;> rfl

theorem selectFiles_true (d : PyStr) (files : List PyStr) (listK) (enum) :
    selectFiles d true files listK enum = files := by
  simp [selectFiles]

theorem selectFiles_false (d : PyStr) (files : List PyStr) (listK) (enum) :
    selectFiles d false files listK enum
      = enum files (((listK (normalizePfx (parse_s3_url d).2)).getD []).map
          (fun file => pyReplaceOnce file (normalizePfx (parse_s3_url d).2))) := by
  simp [selectFiles]

theorem osJoin_nil_left (b : PyStr) : osJoin [] b = b := by
  by_cases hb : startsSlash b = true <;> simp [osJoin, hb]

theorem osJoin_abs (a : PyStr) {b : PyStr} (h : startsSlash b = true) :
    osJoin a b = b := by
  simp [osJoin, h]

theorem osJoin_cat {a b : PyStr} (h1 : startsSlash b = false)
    (h2 : a = [] ∨ endsSlash a = true) : osJoin a b = a ++ b := by
  simp [osJoin, h1, h2]

theorem osJoin_sep {a b : PyStr} (h1 : startsSlash b = false) (h2 : a ≠ [])
    (h3 : endsSlash a = false) : osJoin a b = a ++ '/' :: b := by
  have hno : ¬ (a = [] ∨ endsSlash a = true) := by
    intro h
    rcases h with h | h
    · exact h2 h
    · rw [h3] at h
      exact Bool.false_ne_true h
  simp [osJoin, h1, hno]

theorem endsSlash_false_of_not {a : PyStr} (ha : ¬ (a = [] ∨ endsSlash a = true)) :
    endsSlash a = false := by
  cases hE : endsSlash a with
  | false => rfl
  | true => exact absurd (Or.inr hE) ha

theorem ne_nil_of_not {a : PyStr} (ha : ¬ (a = [] ∨ endsSlash a = true)) :
    a ≠ [] := fun h => ha (Or.inl h)

theorem osJoin_assoc (a b c : PyStr) : osJoin (osJoin a b) c = osJoin a (osJoin b c) := by
  by_cases hc : startsSlash c = true
  · rw [osJoin_abs (osJoin a b) hc, osJoin_abs b hc, osJoin_abs a hc]
  · rw [Bool.not_eq_true] at hc
    by_cases hb : startsSlash b = true
    · have hbn : b ≠ [] := startsSlash_ne_nil hb
      have hbc : startsSlash (osJoin b c) = true := by
        by_cases h0 : b = [] ∨ endsSlash b = true
        · rw [osJoin_cat hc h0, startsSlash_append b c hbn]
          exact hb
        · rw [osJoin_sep hc (ne_nil_of_not h0) (endsSlash_false_of_not h0),
            startsSlash_append b ('/' :: c) hbn]
          exact hb
      rw [osJoin_abs a hb, osJoin_abs a hbc]
    · rw [Bool.not_eq_true] at hb
      by_cases hbe : b = []
      · subst hbe
        rw [osJoin_nil_left c]
        by_cases ha : a = [] ∨ endsSlash a = true
        · rw [osJoin_cat (show startsSlash ([] : PyStr) = false from rfl) ha,
            List.append_nil]
        · have ha1 : a ≠ [] := ne_nil_of_not ha
          have ha2 : endsSlash a = false := endsSlash_false_of_not ha
          rw [osJoin_sep (show startsSlash ([] : PyStr) = false from rfl) ha1 ha2,
            osJoin_cat hc (Or.inr (endsSlash_concat a)),
            osJoin_sep hc ha1 ha2, List.append_assoc, List.singleton_append]
      · have hsbc : startsSlash (b ++ c) = false := by
          rw [startsSlash_append b c hbe]
          exact hb
        have hsbc2 : startsSlash (b ++ '/' :: c) = false := by
          rw [startsSlash_append b ('/' :: c) hbe]
          exact hb
        have hcb : ('/' :: b : PyStr) ≠ [] := by simp
        by_cases hbs : endsSlash b = true
        · have hj : osJoin b c = b ++ c := osJoin_cat hc (Or.inr hbs)
          by_cases ha : a = [] ∨ endsSlash a = true
          · have he : endsSlash (a ++ b) = true := by
              rw [endsSlash_append a b hbe]
              exact hbs
            rw [osJoin_cat hb ha, hj, osJoin_cat hc (Or.inr he), osJoin_cat hsbc ha,
              List.append_assoc]
          · have ha1 : a ≠ [] := ne_nil_of_not ha
            have ha2 : endsSlash a = false := endsSlash_false_of_not ha
            have he : endsSlash (a ++ '/' :: b) = true := by
              rw [endsSlash_append a ('/' :: b) hcb]
              show endsSlash (['/'] ++ b) = true
              rw [endsSlash_append ['/'] b hbe]
              exact hbs
            rw [osJoin_sep hb ha1 ha2, hj, osJoin_cat hc (Or.inr he),
              osJoin_sep hsbc ha1 ha2, List.append_assoc, List.cons_append]
        · rw [Bool.not_eq_true] at hbs
          have hj : osJoin b c = b ++ '/' :: c := osJoin_sep hc hbe hbs
          by_cases ha : a = [] ∨ endsSlash a = true
          · have he : endsSlash (a ++ b) = false := by
              rw [endsSlash_append a b hbe]
              exact hbs
            have hne : a ++ b ≠ [] := by simp [hbe]
            rw [osJoin_cat hb ha, hj, osJoin_sep hc hne he, osJoin_cat hsbc2 ha,
              List.append_assoc]
          · have ha1 : a ≠ [] := ne_nil_of_not ha
            have ha2 : endsSlash a = false := endsSlash_false_of_not ha
            have he : endsSlash (a ++ '/' :: b) = false := by
              rw [endsSlash_append a ('/' :: b) hcb]
              show endsSlash (['/'] ++ b) = false
              rw [endsSlash_append ['/'] b hbe]
              exact hbs
            have hne : a ++ '/' :: b ≠ [] := by simp
            rw [osJoin_sep hb ha1 ha2, hj, osJoin_sep hc hne he,
              osJoin_sep hsbc2 ha1 ha2, List.append_assoc, List.cons_append]

theorem pySetDiffList_isEnum : IsSetDiffEnum pySetDiffList := by
  intro xs ys
  constructor
  · exact (List.nodup_dedup xs).filter _
  · intro a
    simp [pySetDiffList, List.mem_filter, List.mem_dedup]

theorem pySetDiffRev_isEnum : IsSetDiffEnum pySetDiffRev := by
  intro xs ys
  have h := pySetDiffList_isEnum xs ys
  constructor
  · simpa [pySetDiffRev] using h.1
  · intro a
    simpa [pySetDiffRev] using h.2 a

theorem execute_transferred (op0 : Operator) (files0 destKeys : List PyStr)
    (enum) (fetch) (writeErr) :
    (execute op0 files0 destKeys enum fetch writeErr).transferred
      = selectFiles (effectiveOp op0).dest_s3_key (effectiveOp op0).replace files0
          (fun p => some (list_keys destKeys p)) enum := rfl

theorem execute_loop (op0 : Operator) (files0 destKeys : List PyStr)
    (enum) (fetch) (writeErr) :
    ((execute op0 files0 destKeys enum fetch writeErr).destKeys,
      (execute op0 files0 destKeys enum fetch writeErr).err)
      = uploadLoop fetch writeErr (effectiveOp op0).dest_s3_key destKeys
          (execute op0 files0 destKeys enum fetch writeErr).transferred := rfl

theorem execute_op (op0 : Operator) (files0 destKeys : List PyStr)
    (enum) (fetch) (writeErr) :
    (execute op0 files0 destKeys enum fetch writeErr).op = effectiveOp op0 := rfl

/-! ### Claim C2 -/

/-- C2: for every request with replace = true, the transferred set is the
full source listing, whatever the destination holds; the listing and
subtraction at lines 159-176 are not performed (the computed file list
does not depend on the destination lister at all). -/
theorem C2_replace_full_listing (op : Operator) (files0 destKeys : List PyStr)
    (enum : List PyStr → List PyStr → List PyStr)
    (fetch : PyStr → Except String Unit) (writeErr : PyStr → Option String)
    (hrep : op.replace = true) :
    (execute op files0 destKeys enum fetch writeErr).transferred = files0
    ∧ ∀ listK : PyStr → Option (List PyStr),
        selectFiles (effectiveOp op).dest_s3_key op.replace files0 listK enum
          = files0 := by
  constructor
  · rw [execute_transferred, effectiveOp_replace, hrep, selectFiles_true]
  · intro listK
    rw [hrep, selectFiles_true]

/-- Witness for C2 at a concrete request. -/
theorem C2_witness :
    (execute ⟨['b'], none, none, "s3://bkt/data".toList, true, none, true, none⟩
        ["a.csv".toList] ["data/a.csv".toList] pySetDiffList fetchOk writeOk).transferred
      = ["a.csv".toList] :=
  (C2_replace_full_listing ⟨['b'], none, none, "s3://bkt/data".toList, true, none, true, none⟩
    ["a.csv".toList] ["data/a.csv".toList] pySetDiffList fetchOk writeOk rfl).1

/-! ### Claim C4 -/

/-- C4 counterexample: the join used at lines 157 and 182 does not place
exactly one separator between the two segments for all inputs: when the
right segment starts with a separator, the left segment is discarded
altogether (osJoin "a" "/b" is "/b", not "a/b"). -/
theorem C4_counterexample :
    osJoin ['a'] ['/', 'b'] = ['/', 'b']
    ∧ osJoin ['a'] ['/', 'b'] ≠ ['a', '/', 'b'] := by decide

/-- C4 amended: osJoin is associative, and it places exactly one separator
between the segments only when the right segment does not start with a
separator and the left segment is non-empty and does not end with one;
when the right segment starts with a separator the result is the right
segment alone, and when the left segment is empty or already ends with a
separator the two segments are concatenated with no separator inserted. -/
theorem C4_join_characterization (a b c : PyStr) :
    osJoin (osJoin a b) c = osJoin a (osJoin b c)
    ∧ (startsSlash b = true → osJoin a b = b)
    ∧ (startsSlash b = false → (a = [] ∨ endsSlash a = true) → osJoin a b = a ++ b)
    ∧ (startsSlash b = false → a ≠ [] → endsSlash a = false →
        osJoin a b = a ++ '/' :: b) := by
  refine ⟨osJoin_assoc a b c, ?_, ?_, ?_⟩
  · intro hb
    simp [osJoin, hb]
  · intro hb ha
    simp [osJoin, hb, ha]
  · intro hb ha he
    simp [osJoin, hb, ha, he]

/-- Witness for C4 at concrete segments. -/
theorem C4_witness :
    osJoin ['a'] ['b'] = ['a', '/', 'b'] := by
  have h := C4_join_characterization ['a'] ['b'] []
  exact h.2.2.2 (by decide) (by decide) (by decide)

/-! ### Claim C5 -/

/-- C5 counterexample: normalization at lines 167-168 does not make every
non-empty prefix end with exactly one trailing separator: a parsed prefix
that already ends with two separators is left unchanged, so the normalized
prefix still ends with two separators. -/
theorem C5_counterexample :
    normalizePfx ['a', '/', '/'] = ['a', '/', '/']
    ∧ endsSlash (normalizePfx ['a', '/', '/']) = true
    ∧ endsSlash ((normalizePfx ['a', '/', '/']).dropLast) = true := by decide

/-- C5 amended: an empty parsed prefix stays empty (never coerced to a bare
separator); a non-empty parsed prefix ends with at least one separator
after normalization, and a separator is appended only when not already
present (a prefix already ending with a separator is returned unchanged,
otherwise exactly one separator is appended). -/
theorem C5_normalization (p : PyStr) :
    (p = [] → normalizePfx p = [])
    ∧ (p ≠ [] → endsSlash (normalizePfx p) = true)
    ∧ (endsSlash p = true → normalizePfx p = p)
    ∧ (p ≠ [] → endsSlash p = false → normalizePfx p = p ++ ['/']) := by
  refine ⟨?_, ?_, ?_, ?_⟩
  · intro hp
    simp [normalizePfx, hp]
  · intro hp
    by_cases he : endsSlash p = true
    · simp [normalizePfx, hp, he]
    · simp [normalizePfx, hp, he, endsSlash_concat]
  · intro he
    by_cases hp : p = []
    · simp [normalizePfx, hp]
    · simp [normalizePfx, hp, he]
  · intro hp he
    simp [normalizePfx, hp, he]

/-- Witness for C5 at a concrete prefix. -/
theorem C5_witness :
    normalizePfx ['a'] = ['a', '/'] ∧ endsSlash (normalizePfx ['a']) = true := by
  have h := C5_normalization ['a']
  exact ⟨h.2.2.2 (by decide) (by decide), h.2.1 (by decide)⟩

/-! ### Claim C6 -/

/-- C6 counterexample: line 175 uses file.replace(p, "", 1), which removes
the first occurrence of the prefix anywhere in the key, not an occurrence
at the leading position: for the key "ap/b" and the prefix "p/", the code
produces "ab", while removal from the left would leave "ap/b" unchanged
(the key does not start with the prefix). -/
theorem C6_counterexample :
    pyReplaceOnce "ap/b".toList "p/".toList = "ab".toList
    ∧ stripFromLeft "p/".toList "ap/b".toList = "ap/b".toList
    ∧ pyReplaceOnce "ap/b".toList "p/".toList
        ≠ stripFromLeft "p/".toList "ap/b".toList := by decide

/-- C6 amended: the stripping at line 175 removes the first occurrence of
the prefix anywhere in the key; when the key does start with the prefix
(the case for keys listed under that prefix) this is exactly removal from
the left, and an empty prefix leaves the key unchanged. -/
theorem C6_strip_first_occurrence (p key : PyStr) :
    (p.isPrefixOf key = true → pyReplaceOnce key p = key.drop p.length)
    ∧ pyReplaceOnce key [] = key
    ∧ pyReplaceOnce (p ++ key) p = key := by
  refine ⟨?_, stripFirst_nil_pat key, stripFirst_self_append p key⟩
  intro hp
  obtain ⟨t, rfl⟩ := (isPrefixOf_iff_exists p key).mp hp
  rw [pyReplaceOnce, stripFirst_self_append, List.drop_left]

/-- Witness for C6 at a concrete key and prefix. -/
theorem C6_witness :
    pyReplaceOnce "data/a.csv".toList "data/".toList
      = ("data/a.csv".toList).drop ("data/".toList).length :=
  (C6_strip_first_occurrence "data/".toList "data/a.csv".toList).1 (by decide)

/-! ### Claim C7 -/

/-- C7 counterexample: the run mutates the request: with
keep_directory_structure = false and a non-empty source prefix, line 157
reassigns the dest_s3_key field of the operator itself, so after the run
the field no longer holds its construction-time value. -/
theorem C7_counterexample :
    (execute ⟨['b'], some "logs".toList, none, "dest".toList, false, none, false, none⟩
        [] [] pySetDiffList fetchOk writeOk).op.dest_s3_key = "dest/logs".toList
    ∧ (execute ⟨['b'], some "logs".toList, none, "dest".toList, false, none, false, none⟩
        [] [] pySetDiffList fetchOk writeOk).op.dest_s3_key ≠ "dest".toList := by
  decide

/-- C7 amended: a run leaves every field of the request unchanged except
dest_s3_key, which is reassigned to the join of dest_s3_key and the source
prefix exactly when keep_directory_structure is false and the prefix is
non-empty; with keep_directory_structure = true, or with an absent or
empty prefix, dest_s3_key is also unchanged. -/
theorem C7_fields_after_execute (op : Operator) (files0 destKeys : List PyStr)
    (enum : List PyStr → List PyStr → List PyStr)
    (fetch : PyStr → Except String Unit) (writeErr : PyStr → Option String) :
    (execute op files0 destKeys enum fetch writeErr).op.bucket = op.bucket
    ∧ (execute op files0 destKeys enum fetch writeErr).op.pfx = op.pfx
    ∧ (execute op files0 destKeys enum fetch writeErr).op.delimiter = op.delimiter
    ∧ (execute op files0 destKeys enum fetch writeErr).op.replace = op.replace
    ∧ (execute op files0 destKeys enum fetch writeErr).op.s3_acl_policy
        = op.s3_acl_policy
    ∧ (execute op files0 destKeys enum fetch writeErr).op.keep_directory_structure
        = op.keep_directory_structure
    ∧ (execute op files0 destKeys enum fetch writeErr).op.match_glob = op.match_glob
    ∧ (execute op files0 destKeys enum fetch writeErr).op.dest_s3_key
        = (if op.keep_directory_structure = false ∧ op.pfx.getD [] ≠ []
            then osJoin op.dest_s3_key (op.pfx.getD []) else op.dest_s3_key)
    ∧ (op.keep_directory_structure = true →
        (execute op files0 destKeys enum fetch writeErr).op.dest_s3_key
          = op.dest_s3_key)
    ∧ (op.pfx.getD [] = [] →
        (execute op files0 destKeys enum fetch writeErr).op.dest_s3_key
          = op.dest_s3_key) := by
  rw [execute_op]
  by_cases h : op.keep_directory_structure = false ∧ op.pfx.getD [] ≠ []
  · have hop : effectiveOp op
        = ⟨op.bucket, op.pfx, op.delimiter,
            osJoin op.dest_s3_key (op.pfx.getD []), op.replace,
            op.s3_acl_policy, op.keep_directory_structure, op.match_glob⟩ := by
      unfold effectiveOp
      rw [if_pos h]
    rw [hop, if_pos h]
    refine ⟨rfl, rfl, rfl, rfl, rfl, rfl, rfl, rfl, ?_, ?_⟩
    · intro hk
      rw [hk] at h
      simp at h
    · intro hp
      exact absurd hp h.2
  · have hop : effectiveOp op = op := by
      unfold effectiveOp
      rw [if_neg h]
    rw [hop, if_neg h]
    exact ⟨rfl, rfl, rfl, rfl, rfl, rfl, rfl, rfl, fun _ => rfl, fun _ => rfl⟩

/-- Witness for C7 at a concrete request with keep_directory_structure
true: the destination key field is untouched. -/
theorem C7_witness :
    (execute ⟨['b'], some "logs".toList, none, "dest".toList, false, none, true, none⟩
        [] [] pySetDiffList fetchOk writeOk).op.dest_s3_key = "dest".toList :=
  (C7_fields_after_execute
    ⟨['b'], some "logs".toList, none, "dest".toList, false, none, true, none⟩
    [] [] pySetDiffList fetchOk writeOk).2.2.2.2.2.2.2.2.1 rfl

/-! ### Loop and store lemmas -/

theorem uploadLoop_all_ok (fetch : PyStr → Except String Unit)
    (writeErr : PyStr → Option String) (d : PyStr) (ks fs : List PyStr)
    (h : ∀ g ∈ fs, fetch g = Except.ok () ∧ writeErr (osJoin d g) = none) :
    uploadLoop fetch writeErr d ks fs
      = (fs.foldl (fun ks f => load_file ks (osJoin d f)) ks, none) := by
  induction fs generalizing ks with
  | nil => rfl
  | cons f rest ih =>
    have hfe := h f (List.mem_cons_self f rest)
    simp only [uploadLoop, hfe.1, hfe.2, List.foldl_cons]
    exact ih _ (fun g hg => h g (List.mem_cons_of_mem f hg))

theorem uploadLoop_append_ok (fetch : PyStr → Except String Unit)
    (writeErr : PyStr → Option String) (d : PyStr) (pre rest ks : List PyStr)
    (h : ∀ g ∈ pre, fetch g = Except.ok () ∧ writeErr (osJoin d g) = none) :
    uploadLoop fetch writeErr d ks (pre ++ rest)
      = uploadLoop fetch writeErr d
          (pre.foldl (fun ks f => load_file ks (osJoin d f)) ks) rest := by
  induction pre generalizing ks with
  | nil => rfl
  | cons f p ih =>
    have hfe := h f (List.mem_cons_self f p)
    simp only [List.cons_append, uploadLoop, hfe.1, hfe.2, List.foldl_cons]
    exact ih _ (fun g hg => h g (List.mem_cons_of_mem f hg))

theorem uploadLoop_fail (fetch : PyStr → Except String Unit)
    (writeErr : PyStr → Option String) (d : PyStr) (ks : List PyStr)
    (f : PyStr) (post : List PyStr) (e : String)
    (hfail : fetch f = Except.error e
      ∨ (fetch f = Except.ok () ∧ writeErr (osJoin d f) = some e)) :
    uploadLoop fetch writeErr d ks (f :: post) = (ks, some e) := by
  rcases hfail with hfe | ⟨hfe, hw⟩
  · simp [uploadLoop, hfe]
  · simp [uploadLoop, hfe, hw]

theorem load_file_mono {x : PyStr} {ks : List PyStr} (key : PyStr)
    (hx : x ∈ ks) : x ∈ load_file ks key := by
  by_cases h : (parse_s3_url key).2 ∈ ks
  · simp [load_file, h]
    exact hx
  · simp [load_file, h]
    exact Or.inl hx

theorem mem_load_file_rel (ks : List PyStr) (key : PyStr) :
    (parse_s3_url key).2 ∈ load_file ks key := by
  by_cases h : (parse_s3_url key).2 ∈ ks
  · simp [load_file, h]
  · simp [load_file, h]

theorem foldl_load_mono (g : PyStr → PyStr) (fs : List PyStr) {x : PyStr}
    (ks : List PyStr) (hx : x ∈ ks) :
    x ∈ fs.foldl (fun ks f => load_file ks (g f)) ks := by
  induction fs generalizing ks with
  | nil => exact hx
  | cons f rest ih =>
    rw [List.foldl_cons]
    exact ih _ (load_file_mono _ hx)

theorem rel_mem_foldl_load (g : PyStr → PyStr) (fs : List PyStr) {f : PyStr}
    (ks : List PyStr) (hmem : f ∈ fs) :
    (parse_s3_url (g f)).2 ∈ fs.foldl (fun ks f => load_file ks (g f)) ks := by
  induction fs generalizing ks with
  | nil => cases hmem
  | cons f0 rest ih =>
    rw [List.foldl_cons]
    rcases List.mem_cons.mp hmem with h | h
    · subst h
      exact foldl_load_mono g rest _ (mem_load_file_rel ks (g f))
    · exact ih _ h


theorem scheme_prefixed_ne_nil (b p0 : PyStr) : scheme ++ b ++ '/' :: p0 ≠ [] := by
  simp [scheme]

theorem osJoin_parse (b p0 f : PyStr) (hb : '/' ∉ b) (hf : startsSlash f = false) :
    parse_s3_url (osJoin (scheme ++ b ++ '/' :: p0) f)
      = (b, normalizePfx p0 ++ f) := by
  by_cases hp0 : p0 = []
  · subst hp0
    have he : endsSlash (scheme ++ b ++ ['/']) = true := endsSlash_concat (scheme ++ b)
    rw [osJoin_cat hf (Or.inr he), List.append_assoc (scheme ++ b),
      List.singleton_append, parse_append b f hb]
    simp [normalizePfx]
  · have h9 : ('/' :: p0 : PyStr) ≠ [] := by simp
    by_cases hes : endsSlash p0 = true
    · have he : endsSlash (scheme ++ b ++ '/' :: p0) = true := by
        rw [endsSlash_append (scheme ++ b) ('/' :: p0) h9]
        show endsSlash (['/'] ++ p0) = true
        rw [endsSlash_append ['/'] p0 hp0]
        exact hes
      rw [osJoin_cat hf (Or.inr he), List.append_assoc (scheme ++ b),
        List.cons_append, parse_append b (p0 ++ f) hb]
      have hn : normalizePfx p0 = p0 := by simp [normalizePfx, hp0, hes]
      rw [hn]
    · rw [Bool.not_eq_true] at hes
      have he : endsSlash (scheme ++ b ++ '/' :: p0) = false := by
        rw [endsSlash_append (scheme ++ b) ('/' :: p0) h9]
        show endsSlash (['/'] ++ p0) = false
        rw [endsSlash_append ['/'] p0 hp0]
        exact hes
      rw [osJoin_sep hf (scheme_prefixed_ne_nil b p0) he,
        List.append_assoc (scheme ++ b), List.cons_append,
        parse_append b (p0 ++ '/' :: f) hb]
      have hn : normalizePfx p0 = p0 ++ ['/'] := by simp [normalizePfx, hp0, hes]
      rw [hn, List.append_assoc, List.singleton_append]

/-! ### Claim C1 -/

/-- C1: with replace = false, the set of transferred objects is exactly the
source listing minus the destination listing stripped of the normalized
parsed prefix (lines 159-176); no name present in the stripped listing is
ever kept for writing; an absent (None) destination listing behaves the
same as an empty one, and with either all source objects are kept. -/
theorem C1_sync_set_difference (d : PyStr) (files existing : List PyStr)
    (enum : List PyStr → List PyStr → List PyStr) (h : IsSetDiffEnum enum) :
    (selectFiles d false files (fun _ => some existing) enum).toFinset
      = files.toFinset
        \ (existing.map (fun file =>
            pyReplaceOnce file (normalizePfx (parse_s3_url d).2))).toFinset
    ∧ (∀ a ∈ selectFiles d false files (fun _ => some existing) enum,
        a ∉ existing.map (fun file =>
            pyReplaceOnce file (normalizePfx (parse_s3_url d).2)))
    ∧ selectFiles d false files (fun _ => none) enum
        = selectFiles d false files (fun _ => some []) enum
    ∧ (selectFiles d false files (fun _ => none) enum).toFinset
        = files.toFinset := by
  refine ⟨?_, ?_, ?_, ?_⟩
  · rw [selectFiles_false]
    ext a
    simp [List.mem_toFinset, ((h files _).2 a)]
  · intro a ha
    rw [selectFiles_false] at ha
    exact (((h files _).2 a).mp ha).2
  · rw [selectFiles_false, selectFiles_false]
    rfl
  · rw [selectFiles_false]
    ext a
    simp [List.mem_toFinset, ((h files _).2 a)]

/-- Witness for C1 at a concrete request: source has a.csv and b.csv, the
destination already holds data/a.csv under the parsed prefix data/. -/
theorem C1_witness :
    (selectFiles "s3://bkt/data".toList false ["a.csv".toList, "b.csv".toList]
        (fun _ => some ["data/a.csv".toList]) pySetDiffList).toFinset
      = (["a.csv".toList, "b.csv".toList] : List PyStr).toFinset
        \ ((["data/a.csv".toList] : List PyStr).map (fun file =>
            pyReplaceOnce file
              (normalizePfx (parse_s3_url "s3://bkt/data".toList).2))).toFinset :=
  (C1_sync_set_difference "s3://bkt/data".toList
    ["a.csv".toList, "b.csv".toList] ["data/a.csv".toList]
    pySetDiffList pySetDiffList_isEnum).1

/-! ### Claim C8 -/

/-- C8 counterexample: the result order does not in general reflect the
source listing iteration order when replace = false: line 176 rebuilds the
list from a Python set, whose iteration order is unspecified; under the
admissible enumeration pySetDiffRev, the source listing [b, a] with an
empty destination is returned as [a, b]. -/
theorem C8_counterexample :
    IsSetDiffEnum pySetDiffRev
    ∧ selectFiles "s3://bkt/data".toList false ["b".toList, "a".toList]
        (fun _ => some []) pySetDiffRev = ["a".toList, "b".toList]
    ∧ (["a".toList, "b".toList] : List PyStr) ≠ ["b".toList, "a".toList] :=
  ⟨pySetDiffRev_isEnum, by decide, by decide⟩

/-- C8 amended: with replace = true the returned list is the source listing
itself (source order preserved); with replace = false the returned list is
a duplicate-free enumeration of the set difference whose order is the
unspecified set iteration order; in both cases the objects are fetched and
written by one sequential loop over the returned list in its order. -/
theorem C8_order (op : Operator) (files0 destKeys : List PyStr)
    (enum : List PyStr → List PyStr → List PyStr)
    (fetch : PyStr → Except String Unit) (writeErr : PyStr → Option String)
    (h : IsSetDiffEnum enum) :
    (op.replace = true →
        (execute op files0 destKeys enum fetch writeErr).transferred = files0)
    ∧ (op.replace = false →
        (execute op files0 destKeys enum fetch writeErr).transferred
          = enum files0 (existingStripped destKeys (effectiveOp op).dest_s3_key)
        ∧ (execute op files0 destKeys enum fetch writeErr).transferred.Nodup
        ∧ ∀ a, a ∈ (execute op files0 destKeys enum fetch writeErr).transferred
            ↔ a ∈ files0
              ∧ a ∉ existingStripped destKeys (effectiveOp op).dest_s3_key)
    ∧ ((execute op files0 destKeys enum fetch writeErr).destKeys,
        (execute op files0 destKeys enum fetch writeErr).err)
        = uploadLoop fetch writeErr (effectiveOp op).dest_s3_key destKeys
            (execute op files0 destKeys enum fetch writeErr).transferred := by
  refine ⟨?_, ?_, execute_loop op files0 destKeys enum fetch writeErr⟩
  · intro hrep
    rw [execute_transferred, effectiveOp_replace, hrep, selectFiles_true]
  · intro hrep
    have ht : (execute op files0 destKeys enum fetch writeErr).transferred
        = enum files0 (existingStripped destKeys (effectiveOp op).dest_s3_key) := by
      rw [execute_transferred, effectiveOp_replace, hrep, selectFiles_false]
      rfl
    refine ⟨ht, ?_, ?_⟩
    · rw [ht]
      exact (h files0 _).1
    · intro a
      rw [ht]
      exact (h files0 _).2 a

/-- Witness for C8: with replace = true the duplicated source order is
returned verbatim. -/
theorem C8_witness :
    (execute ⟨['b'], none, none, "s3://bkt/data".toList, true, none, true, none⟩
        ["y".toList, "x".toList] [] pySetDiffList fetchOk writeOk).transferred
      = ["y".toList, "x".toList] :=
  (C8_order ⟨['b'], none, none, "s3://bkt/data".toList, true, none, true, none⟩
    ["y".toList, "x".toList] [] pySetDiffList fetchOk writeOk
    pySetDiffList_isEnum).1 rfl

/-! ### Claim C10 -/

/-- C10: with replace = false the returned list holds each name at most
once even if the source listing repeats names (the set difference at line
176 deduplicates); with replace = true the source listing is returned with
its duplicates, and when every fetch and write succeeds the loop drives
each occurrence through a write of its own (one fold step per occurrence). -/
theorem C10_duplicates (op : Operator) (files0 destKeys : List PyStr)
    (enum : List PyStr → List PyStr → List PyStr)
    (fetch : PyStr → Except String Unit) (writeErr : PyStr → Option String)
    (h : IsSetDiffEnum enum) :
    (op.replace = false →
        (execute op files0 destKeys enum fetch writeErr).transferred.Nodup)
    ∧ (op.replace = true →
        (execute op files0 destKeys enum fetch writeErr).transferred = files0
        ∧ ((∀ g ∈ files0, fetch g = Except.ok ()
              ∧ writeErr (osJoin (effectiveOp op).dest_s3_key g) = none) →
            (execute op files0 destKeys enum fetch writeErr).destKeys
              = files0.foldl
                  (fun ks g =>
                    load_file ks (osJoin (effectiveOp op).dest_s3_key g))
                  destKeys
            ∧ (execute op files0 destKeys enum fetch writeErr).err = none)) := by
  constructor
  · intro hrep
    rw [execute_transferred, effectiveOp_replace, hrep, selectFiles_false]
    exact (h files0 _).1
  · intro hrep
    have ht : (execute op files0 destKeys enum fetch writeErr).transferred
        = files0 := by
      rw [execute_transferred, effectiveOp_replace, hrep, selectFiles_true]
    refine ⟨ht, fun hok => ?_⟩
    have hl := execute_loop op files0 destKeys enum fetch writeErr
    rw [ht, uploadLoop_all_ok fetch writeErr _ destKeys files0 hok] at hl
    exact ⟨(Prod.ext_iff.mp hl).1, (Prod.ext_iff.mp hl).2⟩

/-- Witness for C10: a source listing repeating x.csv is returned with the
duplicate under replace = true, and both occurrences are written. -/
theorem C10_witness :
    (execute ⟨['b'], none, none, "s3://bkt/data".toList, true, none, true, none⟩
        ["x".toList, "x".toList] [] pySetDiffList fetchOk writeOk).transferred
      = ["x".toList, "x".toList]
    ∧ (execute ⟨['b'], none, none, "s3://bkt/data".toList, true, none, true, none⟩
        ["x".toList, "x".toList] [] pySetDiffList fetchOk writeOk).err = none := by
  have h := (C10_duplicates
    ⟨['b'], none, none, "s3://bkt/data".toList, true, none, true, none⟩
    ["x".toList, "x".toList] [] pySetDiffList fetchOk writeOk
    pySetDiffList_isEnum).2 rfl
  exact ⟨h.1, (h.2 (fun g _ => ⟨rfl, rfl⟩)).2⟩

/-! ### Claim C9 -/

/-- C9: failures are fatal and propagated: if the transferred list splits as
pre ++ f :: post, every object of pre fetches and writes cleanly, and the
fetch or the write of f fails with error e, the run reports exactly e and
the destination keeps exactly the writes of pre (no rollback, no retry, no
skipping); a run in which every fetch and write succeeds reports no error
and the destination receives every transferred object. -/
theorem C9_fatal_errors (op : Operator) (files0 destKeys : List PyStr)
    (enum : List PyStr → List PyStr → List PyStr)
    (fetch : PyStr → Except String Unit) (writeErr : PyStr → Option String) :
    (∀ pre f post e,
        (execute op files0 destKeys enum fetch writeErr).transferred
          = pre ++ f :: post →
        (∀ g ∈ pre, fetch g = Except.ok ()
            ∧ writeErr (osJoin (effectiveOp op).dest_s3_key g) = none) →
        (fetch f = Except.error e
          ∨ (fetch f = Except.ok ()
              ∧ writeErr (osJoin (effectiveOp op).dest_s3_key f) = some e)) →
        (execute op files0 destKeys enum fetch writeErr).err = some e
        ∧ (execute op files0 destKeys enum fetch writeErr).destKeys
            = pre.foldl
                (fun ks g => load_file ks (osJoin (effectiveOp op).dest_s3_key g))
                destKeys)
    ∧ ((∀ g ∈ (execute op files0 destKeys enum fetch writeErr).transferred,
          fetch g = Except.ok ()
          ∧ writeErr (osJoin (effectiveOp op).dest_s3_key g) = none) →
        (execute op files0 destKeys enum fetch writeErr).err = none
        ∧ (execute op files0 destKeys enum fetch writeErr).destKeys
            = (execute op files0 destKeys enum fetch writeErr).transferred.foldl
                (fun ks g => load_file ks (osJoin (effectiveOp op).dest_s3_key g))
                destKeys) := by
  constructor
  · intro pre f post e htr hpre hfail
    have hl := execute_loop op files0 destKeys enum fetch writeErr
    rw [htr,
      uploadLoop_append_ok fetch writeErr _ pre (f :: post) destKeys hpre,
      uploadLoop_fail fetch writeErr _ _ f post e hfail] at hl
    exact ⟨(Prod.ext_iff.mp hl).2, (Prod.ext_iff.mp hl).1⟩
  · intro hok
    have hl := execute_loop op files0 destKeys enum fetch writeErr
    rw [uploadLoop_all_ok fetch writeErr _ destKeys _ hok] at hl
    exact ⟨(Prod.ext_iff.mp hl).2, (Prod.ext_iff.mp hl).1⟩

/-- Witness for C9: the second object's fetch fails with boom after the
first object was written; the run reports boom and keeps the first write. -/
theorem C9_witness :
    (execute ⟨['b'], none, none, "s3://bkt/data".toList, true, none, true, none⟩
        ["a".toList, "bad".toList] []
        pySetDiffList
        (fun f => if f = "bad".toList then Except.error "boom" else Except.ok ())
        writeOk).err = some "boom"
    ∧ (execute ⟨['b'], none, none, "s3://bkt/data".toList, true, none, true, none⟩
        ["a".toList, "bad".toList] []
        pySetDiffList
        (fun f => if f = "bad".toList then Except.error "boom" else Except.ok ())
        writeOk).destKeys
      = ["a".toList].foldl
          (fun ks g =>
            load_file ks
              (osJoin (effectiveOp
                ⟨['b'], none, none, "s3://bkt/data".toList, true, none, true,
                  none⟩).dest_s3_key g)) [] :=
  (C9_fatal_errors
    ⟨['b'], none, none, "s3://bkt/data".toList, true, none, true, none⟩
    ["a".toList, "bad".toList] [] pySetDiffList
    (fun f => if f = "bad".toList then Except.error "boom" else Except.ok ())
    writeOk).1
    ["a".toList] "bad".toList [] "boom" (by decide)
    (by
      intro g hg
      rw [List.mem_singleton] at hg
      subst hg
      exact ⟨rfl, rfl⟩)
    (Or.inl rfl)

/-! ### Claim C3 -/

/-- C3: sync with replace = false is idempotent.  After one run with no
fetch or write failures, a second run of the same request against the
unchanged source listing and the destination state left by the first run
transfers nothing, whatever admissible set order and whatever fetch and
write outcomes the second run sees.  The effective destination key is an
s3 composite key (scheme, a bucket name free of separators, a slash, a key
prefix) and, as in the source store, object names do not start with the
separator: every written key join(dest_s3_key, name), once parsed, listed
under the normalized prefix and stripped, recovers exactly name. -/
theorem C3_idempotent (op : Operator) (files destKeys : List PyStr)
    (b p0 : PyStr) (enum enum2 : List PyStr → List PyStr → List PyStr)
    (fetch2 : PyStr → Except String Unit) (writeErr2 : PyStr → Option String)
    (h1 : IsSetDiffEnum enum) (h2 : IsSetDiffEnum enum2)
    (hrep : op.replace = false)
    (hd : (effectiveOp op).dest_s3_key = scheme ++ b ++ '/' :: p0)
    (hb : '/' ∉ b)
    (hf : ∀ f ∈ files, startsSlash f = false) :
    (execute op files
        (execute op files destKeys enum fetchOk writeOk).destKeys
        enum2 fetch2 writeErr2).transferred = [] := by
  have hrep2 : (effectiveOp op).replace = false := by
    rw [effectiveOp_replace, hrep]
  have hparse : parse_s3_url (effectiveOp op).dest_s3_key = (b, p0) := by
    rw [hd]
    exact parse_append b p0 hb
  have ht1 : (execute op files destKeys enum fetchOk writeOk).transferred
      = enum files (existingStripped destKeys (effectiveOp op).dest_s3_key) := by
    rw [execute_transferred, hrep2, selectFiles_false]
    rfl
  have hk1 : (execute op files destKeys enum fetchOk writeOk).destKeys
      = (execute op files destKeys enum fetchOk writeOk).transferred.foldl
          (fun ks g => load_file ks (osJoin (effectiveOp op).dest_s3_key g))
          destKeys := by
    have hl := execute_loop op files destKeys enum fetchOk writeOk
    rw [uploadLoop_all_ok fetchOk writeOk _ destKeys _
      (fun g _ => ⟨rfl, rfl⟩)] at hl
    exact (Prod.ext_iff.mp hl).1
  have ht2 : (execute op files
      (execute op files destKeys enum fetchOk writeOk).destKeys
      enum2 fetch2 writeErr2).transferred
      = enum2 files
          (existingStripped
            (execute op files destKeys enum fetchOk writeOk).destKeys
            (effectiveOp op).dest_s3_key) := by
    rw [execute_transferred, hrep2, selectFiles_false]
    rfl
  rw [ht2, List.eq_nil_iff_forall_not_mem]
  intro a ha
  obtain ⟨haf, hnot⟩ := ((h2 files _).2 a).mp ha
  apply hnot
  unfold existingStripped
  rw [hparse]
  by_cases hstrip : a ∈ existingStripped destKeys (effectiveOp op).dest_s3_key
  · unfold existingStripped at hstrip
    rw [hparse] at hstrip
    obtain ⟨k, hk_mem, hk_eq⟩ := List.mem_map.mp hstrip
    obtain ⟨hkd, hkp⟩ := List.mem_filter.mp hk_mem
    refine List.mem_map.mpr ⟨k, List.mem_filter.mpr ⟨?_, hkp⟩, hk_eq⟩
    rw [hk1]
    exact foldl_load_mono _ _ _ hkd
  · have ha1 : a ∈ (execute op files destKeys enum fetchOk writeOk).transferred := by
      rw [ht1]
      exact ((h1 files _).2 a).mpr ⟨haf, hstrip⟩
    have hrel : (parse_s3_url (osJoin (effectiveOp op).dest_s3_key a)).2
        = normalizePfx p0 ++ a := by
      rw [hd]
      exact congrArg Prod.snd (osJoin_parse b p0 a hb (hf a haf))
    have hin : normalizePfx p0 ++ a
        ∈ (execute op files destKeys enum fetchOk writeOk).destKeys := by
      rw [hk1, ← hrel]
      exact rel_mem_foldl_load _ _ _ ha1
    refine List.mem_map.mpr
      ⟨normalizePfx p0 ++ a,
        List.mem_filter.mpr ⟨hin, isPrefixOf_self_append _ _⟩, ?_⟩
    exact stripFirst_self_append _ _

/-- Witness for C3 at a concrete request: two source objects, an empty
destination; the first run writes both, the second run transfers nothing. -/
theorem C3_witness :
    (execute ⟨['b'], none, none, "s3://bkt/data".toList, false, none, true, none⟩
        ["a.csv".toList, "b.csv".toList]
        (execute ⟨['b'], none, none, "s3://bkt/data".toList, false, none, true, none⟩
          ["a.csv".toList, "b.csv".toList] [] pySetDiffList fetchOk writeOk).destKeys
        pySetDiffList fetchOk writeOk).transferred = [] :=
  C3_idempotent
    ⟨['b'], none, none, "s3://bkt/data".toList, false, none, true, none⟩
    ["a.csv".toList, "b.csv".toList] [] "bkt".toList "data".toList
    pySetDiffList pySetDiffList fetchOk writeOk
    pySetDiffList_isEnum pySetDiffList_isEnum rfl (by decide) (by decide)
    (by decide)

end GcsToS3
